import Mathlib

/-!
# Multi-Threaded Algorithmic Trading System: a verification development

A shallow embedding of the parts of the trading system that its specification
makes claims about, followed by the theorems that settle those claims.

* `Logger`           : `src/CommonServer/logging/Logger.hpp`
* `HistoricalClient` : `src/MarketData/MarketDataHistoricalClient.cpp`
* `Common`           : the `double` values the message objects carry
* `MessageObjects`   : `src/MessageObjects/marketdata/PriceLevel.hpp`
* `MarketData`       : `src/MarketData/consumers/MarketDataConsumer.cpp`
* `Strategies`       : `src/Strategies/StrategyServer.hpp` and
                       `src/StrategyCommon/managers/OrderManager.hpp`

Definitions whose doc comment starts with "Modelled from the spec" stand for
code that the headers above declare but whose definition is in a file that is
not available; every other definition is a translation of the source.
-/

namespace BeaconTech

/-! ## Logger: the variadic `log` template (Logger.hpp, lines 126-152) -/

namespace Logger

/-- One call made by the variadic `log` template, in program order.  The
first three constructors are the `pushValue` overloads it uses, each of which
writes one log element to the lock-free queue; the last one is the call of the
non-template overload `log(const char*)` (declared on line 46, defined outside
the available sources) that the template makes once its arguments run out. -/
inductive Call (α : Type) where
  /-- The call `pushValue(char)` made by `pushValue(*s++)`. -/
  | pushChar (c : Char)
  /-- The call `pushValue(const char*)` made by `pushValue("\n")`. -/
  | pushCStr (s : String)
  /-- The call `pushValue(value)` on a substituted argument. -/
  | pushArg (value : α)
  /-- The call `log(s + 1)` with an empty pack: the non-template overload. -/
  | logPlain (s : List Char)
  deriving DecidableEq, Repr

/-- The template `log(const char* s, const T& value, Args... args)`.

The format string is the list of characters of `s` before its terminating
NUL, so `*s` is false exactly on `[]`, and `*(s + 1)` of a one-character
string is the terminator, which is not `'%'`.  The parameter pack is the list
`args`; the call `log(s + 1, args...)` resolves to this template when the pack
is non-empty and to the non-template overload when it is empty.  One loop
iteration is one equation: the second handles a last character (`s + 1` is the
terminator), the third a character that has a successor. -/
def log {α : Type} : List Char → α → List α → List (Call α)
  | [], _, _ => [Call.pushCStr "\n"]
  | [c], value, args =>
    if c = '%' then
      -- `*(s + 1)` is the terminator: `pushValue(value); log(s + 1, args...); return;`
      Call.pushArg value ::
        (match args with
         | [] => [Call.logPlain []]
         | a :: as => log [] a as)
    else
      -- `pushValue(*s++);`
      Call.pushChar c :: log [] value args
  | c :: d :: rest, value, args =>
    if c = '%' then
      if d = '%' then
        -- `++s; pushValue(*s++);` pushes the second '%' and moves past both
        Call.pushChar d :: log rest value args
      else
        -- `pushValue(value); log(s + 1, args...); return;`
        Call.pushArg value ::
          (match args with
           | [] => [Call.logPlain (d :: rest)]
           | a :: as => log (d :: rest) a as)
    else
      -- `pushValue(*s++);`
      Call.pushChar c :: log (d :: rest) value args

/-- What `log(s + 1, args...)` resolves to for a given parameter pack. -/
def logRest {α : Type} (s : List Char) : List α → List (Call α)
  | [] => [Call.logPlain s]
  | a :: as => log s a as

/-- Number of arguments a run of `log` hands to `pushValue`. -/
def argsConsumed {α : Type} : List (Call α) → Nat
  | [] => 0
  | Call.pushArg _ :: cs => argsConsumed cs + 1
  | _ :: cs => argsConsumed cs

/-- Following the claim's words: text in which every literal `'%'` is written
as the pair `"%%"` and every other character as itself. -/
def escape : List Char → List Char
  | [] => []
  | c :: cs => if c = '%' then '%' :: '%' :: escape cs else c :: escape cs

/-- Following the claim's words: the number of `'%'` characters of a format
string that are not part of a `"%%"` pair, pairing from left to right. -/
def unescapedPercents : List Char → Nat
  | [] => 0
  | [c] => if c = '%' then 1 else 0
  | c :: d :: rest =>
    if c = '%' then
      if d = '%' then unescapedPercents rest else unescapedPercents (d :: rest) + 1
    else unescapedPercents (d :: rest)

end Logger

/-! ## Historical client: the downloaded-file filter
(MarketDataHistoricalClient.cpp, lines 32-49) -/

namespace HistoricalClient

/-- A file name: the bytes of a `std::string`. -/
abbrev FileName := List Char

/-- The exception a `std::string` member can raise here. -/
inductive Exn where
  /-- The exception `std::out_of_range`. -/
  | outOfRange
  deriving DecidableEq, Repr

/-- Subtraction `a - b` on `std::size_t` (64 bits, unsigned), for operands
below `2^64`: it wraps around when `a < b`. -/
def sizeSub (a b : Nat) : Nat := if b ≤ a then a - b else 2 ^ 64 - (b - a)

/-- The call `std::string::substr(pos)`: the characters from `pos` to the
end, and `std::out_of_range` when `pos > size()`. -/
def substr (s : List Char) (pos : Nat) : Except Exn (List Char) :=
  if pos > s.length then Except.error Exn.outOfRange else Except.ok (s.drop pos)

/-- The condition `file.substr(file.length() - 8) == ".dbn.zst"` of line 41. -/
def suffixTest (file : FileName) : Except Exn Bool := do
  let tail ← substr file (sizeSub file.length 8)
  pure (decide (tail = ".dbn.zst".toList))

/-- The loop of lines 39-46 over the download list: the files handed to
`Replay`, in order, and the exception that ended the loop early, if any. -/
def replayDownloaded : List FileName → List FileName × Option Exn
  | [] => ([], none)
  | file :: files =>
    match suffixTest file with
    | Except.error e => ([], some e)
    | Except.ok true => (file :: (replayDownloaded files).1, (replayDownloaded files).2)
    | Except.ok false => replayDownloaded files

end HistoricalClient

/-! ## Numeric types -/

namespace Common

/-- A C++ `double`, as far as the claims need it: either not-a-number, an
infinity, or a finite value (a rational here, of which the representable
doubles are a subset).  No arithmetic is performed on prices by the code
under study, so no rounding is modelled. -/
inductive Double where
  /-- A quiet NaN. -/
  | nan
  /-- Negative infinity. -/
  | negInf
  /-- A finite value. -/
  | finite (q : ℚ)
  /-- Positive infinity. -/
  | posInf
  deriving DecidableEq

/-- The test `std::isnan`. -/
def Double.isNaN : Double → Bool
  | Double.nan => true
  | _ => false

/-- The test `x < 0` on doubles (false on NaN). -/
def Double.isNegative : Double → Bool
  | Double.negInf => true
  | Double.finite q => decide (q < 0)
  | _ => false

/-- Modelled from the spec: the constant `Common::NaN` of
`CommonServer/TypeSystem/NumericTypes.hpp`, which is not among the available
sources; the spec calls it the NaN sentinel for the empty level. -/
def NaN : Double := Double.nan

end Common

/-! ## Message objects: `PriceLevel` (PriceLevel.hpp, lines 17-32) -/

namespace MessageObjects

/-- The struct `PriceLevel`: `double price; std::uint32_t size; int count;`.
The integer fields only store what they are given, so they are kept as the
numbers they hold. -/
structure PriceLevel where
  /-- The field `double price`. -/
  price : Common.Double
  /-- The field `std::uint32_t size`. -/
  size : Nat
  /-- The field `int count`. -/
  count : Int
  deriving DecidableEq

/-- The constructor `PriceLevel() : price{Common::NaN}, size{0}, count{0}`. -/
def PriceLevel.default : PriceLevel := ⟨Common.NaN, 0, 0⟩

/-- The constructor `PriceLevel(double price, std::uint32_t size, int count)`. -/
def PriceLevel.make (price : Common.Double) (size : Nat) (count : Int) : PriceLevel :=
  ⟨price, size, count⟩

end MessageObjects

/-! ## Market-data consumer (MarketDataConsumer.cpp, lines 19-45) -/

namespace MarketData

/-- The enumeration `databento::KeepGoing` returned by a record callback. -/
inductive KeepGoing where
  /-- Keep delivering records. -/
  | Continue
  /-- Stop delivering records. -/
  | Stop
  deriving DecidableEq, Repr

/-- The fields of a `databento::MboMsg` that `processQuote` reads. -/
structure MboMsg where
  /-- The field `hd.instrument_id`. -/
  instrumentId : Nat
  /-- The field `size`. -/
  size : Nat
  /-- The field `price`, in fixed-point units. -/
  price : Int
  /-- The field `side`. -/
  side : Char
  deriving DecidableEq, Repr

/-- The callback `processQuote` (MarketDataHistoricalClient.cpp, lines
16-24): it prints the record and always answers `KeepGoing::Continue`.  Only
its answer is modelled. -/
def processQuote (_record : MboMsg) : KeepGoing := KeepGoing.Continue

/-- The members of `MarketDataConsumer<T>` that the constructor initialises:
the reference to the streaming processor and the stop flag. -/
structure MarketDataConsumer (P : Type) where
  /-- The member `streamingProcessor`. -/
  streamingProcessor : P
  /-- The member `stopSignal`. -/
  stopSignal : Bool
  deriving DecidableEq

/-- The constructor: `streamingProcessor{streamingProcessor}, stopSignal{false}`. -/
def MarketDataConsumer.new {P : Type} (streamingProcessor : P) : MarketDataConsumer P :=
  ⟨streamingProcessor, false⟩

/-- The method `stop()`: `stopSignal = true;`. -/
def MarketDataConsumer.stop {P : Type} (c : MarketDataConsumer P) : MarketDataConsumer P :=
  { c with stopSignal := true }

/-- A market-data client `T`, reduced to the one member `start` uses:
`getBookUpdate(streamingProcessor)`, whose value is the callable handed to
`std::async`. -/
structure Provider (P J : Type) where
  /-- The member function `getBookUpdate`. -/
  getBookUpdate : P → J

/-- The method `start(marketDataClient_)`: it assigns no member of the
consumer (the only assignment in its body is commented out) and submits
`marketDataClient_.getBookUpdate(streamingProcessor)` as an asynchronous
task.  The result is the consumer afterwards and the submitted task. -/
def MarketDataConsumer.start {P J : Type} (c : MarketDataConsumer P) (marketDataClient : Provider P J) :
    MarketDataConsumer P × J :=
  (c, marketDataClient.getBookUpdate c.streamingProcessor)

/-- Modelled from the spec: the callable that `getBookUpdate` returns, whose
definition is not among the available sources.  Following section 6 of the
spec it is the provider's pull loop: it invokes the callback it was given once
per record, until the callback answers `Stop` or the provider has no more
records.  It holds what line 37 of MarketDataConsumer.cpp hands to
`getBookUpdate`, the streaming processor, and the provider's own records;
it holds no reference to the consumer. -/
structure PullLoop (R : Type) where
  /-- The streaming processor, as the callback of the loop. -/
  callback : R → KeepGoing
  /-- The records the provider has yet to deliver. -/
  pending : List R
  /-- Whether the loop has ended. -/
  finished : Bool

/-- Modelled from the spec: one iteration of the pull loop, with the record
it handed to the callback, if any. -/
def PullLoop.step {R : Type} (l : PullLoop R) : PullLoop R × Option R :=
  if l.finished then (l, none)
  else
    match l.pending with
    | [] => ({ l with finished := true }, none)
    | r :: rest =>
      ({ l with
         pending := rest
         finished := match l.callback r with
           | KeepGoing.Continue => false
           | KeepGoing.Stop => true },
       some r)

/-- Modelled from the spec: a market-data client that has `records` to
deliver; its `getBookUpdate(streamingProcessor)` is the pull loop over them. -/
def replayClient {R : Type} (records : List R) : Provider (R → KeepGoing) (PullLoop R) :=
  ⟨fun streamingProcessor => ⟨streamingProcessor, records, false⟩⟩

/-- What running a submitted callable of type `J` means: its next step, with
the record it hands to the callback in that step, if any, and whether it has
run to its end.  The callable itself comes from the client, so the session
below takes this as a parameter. -/
structure TaskOps (J R : Type) where
  /-- One step of the callable. -/
  step : J → J × Option R
  /-- Whether the callable has completed. -/
  finished : J → Bool

/-- The pull loop as a submitted callable. -/
def pullLoopOps (R : Type) : TaskOps (PullLoop R) R :=
  ⟨PullLoop.step, PullLoop.finished⟩

/-- Where the thread that called `start` stands in its body (lines 30-38). -/
inductive CallerPc where
  /-- Before line 37: the task has not been submitted yet. -/
  | submitting
  /-- At the closing brace of line 38: the local `future` is being destroyed.
  The destructor of a future obtained from `std::async` with
  `std::launch::async` waits for the task to complete. -/
  | joining
  /-- Control is back in the caller of `start`. -/
  | returned
  deriving DecidableEq, Repr

/-- The threads of a session. -/
inductive Actor where
  /-- The thread that called `start` takes its next step. -/
  | caller
  /-- The asynchronous task takes its next step. -/
  | task
  /-- Some other thread calls `stop()` on the consumer. -/
  | stopper
  deriving DecidableEq, Repr

/-- A session: the consumer, the thread inside `start`, the asynchronous
task once it is submitted, and two observations: whether `stop()` has been
called, and the callback invocations so far, each with the value the first
observation had when the invocation happened. -/
structure Session (P J R : Type) where
  /-- The consumer. -/
  consumer : MarketDataConsumer P
  /-- The position of the calling thread in `start`. -/
  caller : CallerPc
  /-- The submitted task; `none` before `std::async` is called. -/
  task : Option J
  /-- Whether `stop()` has been called. -/
  stopCalled : Bool
  /-- The callback invocations so far, oldest first. -/
  invoked : List (R × Bool)

/-- One step of one thread.

* `caller`: line 37 runs `start` (the source's `MarketDataConsumer.start`),
  which submits the task; at line 38 the destructor of `future` lets the
  thread go on only once the task has completed.
* `task`: one step of the submitted callable, unless it has completed.
* `stopper`: the source's `stop()`. -/
def step {P J R : Type} (ops : TaskOps J R) (client : Provider P J) (s : Session P J R) :
    Actor → Session P J R
  | Actor.caller =>
    match s.caller with
    | CallerPc.submitting =>
      { s with
        consumer := (s.consumer.start client).1
        task := some (s.consumer.start client).2
        caller := CallerPc.joining }
    | CallerPc.joining =>
      match s.task with
      | some l => if ops.finished l then { s with caller := CallerPc.returned } else s
      | none => s
    | CallerPc.returned => s
  | Actor.task =>
    match s.task with
    | none => s
    | some l =>
      if ops.finished l then s
      else
        { s with
          task := some (ops.step l).1
          invoked := match (ops.step l).2 with
            | none => s.invoked
            | some r => s.invoked ++ [(r, s.stopCalled)] }
  | Actor.stopper => { s with consumer := s.consumer.stop, stopCalled := true }

/-- A session run under a schedule, that is, an interleaving of its threads. -/
def run {P J R : Type} (ops : TaskOps J R) (client : Provider P J) (s : Session P J R)
    (schedule : List Actor) : Session P J R :=
  schedule.foldl (step ops client) s

/-- The session in which a thread is about to call `start` on a new consumer. -/
def Session.initial {P J R : Type} (streamingProcessor : P) : Session P J R :=
  ⟨MarketDataConsumer.new streamingProcessor, CallerPc.submitting, none, false, []⟩

/-- The records handed to the callback so far. -/
def Session.delivered {P J R : Type} (s : Session P J R) : List R :=
  s.invoked.map (fun e => e.1)

/-- The records handed to the callback after `stop()` had been called. -/
def Session.invokedAfterStop {P J R : Type} (s : Session P J R) : List R :=
  (s.invoked.filter (fun e => e.2)).map (fun e => e.1)

/-- Whether the submitted task has run to its end. -/
def Session.taskFinished {P J R : Type} (ops : TaskOps J R) (s : Session P J R) : Bool :=
  match s.task with
  | some l => ops.finished l
  | none => false

/-- A schedule with the calls of `stop()` taken out. -/
def withoutStop (schedule : List Actor) : List Actor :=
  schedule.filter (fun a => a ≠ Actor.stopper)

/-- Two sessions that differ at most in the stop flag and in the observations
about `stop()`. -/
def Session.SameWork {P J R : Type} (s t : Session P J R) : Prop :=
  s.consumer.streamingProcessor = t.consumer.streamingProcessor ∧ s.caller = t.caller ∧
    s.task = t.task ∧ s.delivered = t.delivered

end MarketData

/-! ## Strategy server: routing (StrategyServer.hpp, lines 34-51) -/

namespace Strategies

/-- Modelled from the spec: the status of an order (`Order.hpp` is not among
the available sources). -/
inductive OrderStatus where
  /-- Created, not yet open. -/
  | NEW
  /-- Resting. -/
  | OPEN
  /-- Filled. -/
  | FILLED
  /-- Cancelled. -/
  | CANCELLED
  deriving DecidableEq, Repr

/-- Modelled from the spec: an order, with the fields the request carries and
its status (`Order.hpp` is not among the available sources). -/
structure Order where
  /-- The bid price of the request. -/
  bidPrice : Common.Double
  /-- The ask price of the request. -/
  askPrice : Common.Double
  /-- The quantity of the request. -/
  qty : Nat
  /-- The status of the order. -/
  status : OrderStatus
  deriving DecidableEq

/-- The member `openOrders`: `unordered_map<uint32_t, Order>`, instrument id
to order. -/
abbrev OpenOrders := Nat → Option Order

/-- The error kinds of the order manager named by the spec. -/
inductive OrderError where
  /-- The rejected-request condition. -/
  | InvalidOrderRequest
  deriving DecidableEq, Repr

/-- Modelled from the spec: a price is invalid when it is NaN or negative. -/
def invalidPrice (p : Common.Double) : Bool := p.isNaN || p.isNegative

/-- Modelled from the spec: the body of `OrderManager<T>::onOrderRequest`,
which is only declared in OrderManager.hpp (its definition, in
OrderManager.cpp, is not among the available sources).  Following section 4.8
of the spec, a request with `qty == 0` or an invalid price is rejected with
`InvalidOrderRequest` and the map is left as it was; otherwise the order of
the instrument is created, or replaced, by a new `OPEN` order.  The result is
the map afterwards and what is signalled to the caller. -/
def onOrderRequest (openOrders : OpenOrders) (instrumentId : Nat)
    (bidPrice askPrice : Common.Double) (qty : Nat) : OpenOrders × Except OrderError Unit :=
  if qty = 0 || invalidPrice bidPrice || invalidPrice askPrice then
    (openOrders, Except.error OrderError.InvalidOrderRequest)
  else
    (fun i => if i = instrumentId then some ⟨bidPrice, askPrice, qty, OrderStatus.OPEN⟩
              else openOrders i,
     Except.ok ())

end Strategies

end BeaconTech

/-! # Theorems -/

namespace BeaconTech

namespace Logger

theorem log_cons_of_ne {α : Type} (c : Char) (s : List Char) (value : α) (args : List α)
    (hc : c ≠ '%') : log (c :: s) value args = Call.pushChar c :: log s value args := by
  cases s <;> simp [log, hc]

theorem log_escaped_pair {α : Type} (s : List Char) (value : α) (args : List α) :
    log ('%' :: '%' :: s) value args = Call.pushChar '%' :: log s value args := by
  simp [log]

theorem log_placeholder {α : Type} (s : List Char) (value : α) (args : List α)
    (hs : s.head? ≠ some '%') :
    log ('%' :: s) value args = Call.pushArg value :: logRest s args := by
  cases s with
  | nil => cases args <;> simp [log, logRest]
  | cons d rest =>
    have hd : d ≠ '%' := by simpa using hs
    cases args <;> simp [log, logRest, hd]

/-- Every format string with a `'%'` that is not part of a `"%%"` pair splits
at the first such `'%'`: escaped text, the `'%'`, and a remainder that does
not pair with it. -/
theorem exists_split_of_unescaped (s : List Char) (h : unescapedPercents s ≠ 0) :
    ∃ lit rest, rest.head? ≠ some '%' ∧ s = escape lit ++ '%' :: rest := by
  induction s using unescapedPercents.induct with
  | case1 => simp [unescapedPercents] at h
  | case2 => exact ⟨[], [], by simp, by simp [escape]⟩
  | case3 c hc => simp [unescapedPercents, hc] at h
  | case4 rest ih =>
    obtain ⟨lit, r, hr, hs⟩ := ih (by simpa [unescapedPercents] using h)
    exact ⟨'%' :: lit, r, hr, by simp [escape, hs]⟩
  | case5 d rest hd _ =>
    exact ⟨[], d :: rest, by simpa using hd, by simp [escape]⟩
  | case6 c d rest hc ih =>
    obtain ⟨lit, r, hr, hs⟩ := ih (by simpa [unescapedPercents, hc] using h)
    exact ⟨c :: lit, r, hr, by simp [escape, hc, hs]⟩

theorem unescapedPercents_cons_of_ne (c : Char) (s : List Char) (hc : c ≠ '%') :
    unescapedPercents (c :: s) = unescapedPercents s := by
  cases s <;> simp [unescapedPercents, hc]

theorem unescapedPercents_escape_append (lit rest : List Char) :
    unescapedPercents (escape lit ++ rest) = unescapedPercents rest := by
  induction lit with
  | nil => simp [escape]
  | cons c cs ih =>
    by_cases hc : c = '%'
    · subst hc
      simpa [escape, unescapedPercents] using ih
    · simpa [escape, hc, unescapedPercents_cons_of_ne] using ih

/-- Conversely, a string split in that way has a `'%'` that is not part of a
`"%%"` pair. -/
theorem unescaped_of_split (lit rest : List Char) (hrest : rest.head? ≠ some '%') :
    unescapedPercents (escape lit ++ '%' :: rest) = unescapedPercents rest + 1 := by
  rw [unescapedPercents_escape_append]
  cases rest with
  | nil => simp [unescapedPercents]
  | cons d r =>
    have hd : d ≠ '%' := by simpa using hrest
    simp [unescapedPercents, hd]

theorem log_escape_append {α : Type} (lit rest : List Char) (value : α) (args : List α) :
    log (escape lit ++ rest) value args = lit.map Call.pushChar ++ log rest value args := by
  induction lit with
  | nil => simp [escape]
  | cons c cs ih =>
    by_cases hc : c = '%'
    · subst hc
      simp [escape, log_escaped_pair, ih]
    · simp [escape, hc, log_cons_of_ne, ih]

theorem argsConsumed_log {α : Type} (s : List Char) (value : α) (args : List α) :
    argsConsumed (log s value args) = min (unescapedPercents s) (args.length + 1) := by
  induction s, value, args using log.induct with
  | case1 v a => simp [log, argsConsumed, unescapedPercents]
  | case2 v a ih =>
    cases a with
    | nil => simp [log, argsConsumed, unescapedPercents]
    | cons b bs => have := ih b bs; simp [log, argsConsumed, unescapedPercents] at *
  | case3 c v a hc ih => simp [log, argsConsumed, unescapedPercents, hc] at *
  | case4 rest v a ih => simpa [log, argsConsumed, unescapedPercents] using ih
  | case5 d rest v a hd ih =>
    cases a with
    | nil => simp [log, argsConsumed, unescapedPercents, hd]
    | cons b bs =>
      have := ih b bs
      simp [log, argsConsumed, unescapedPercents, hd] at *
      omega
  | case6 c d rest v a hc ih => simpa [log, argsConsumed, unescapedPercents, hc] using ih

/-- C7, as stated, fails: on the format string `"% %"` with the single
argument `7` the template consumes one argument, while the string has two
`'%'` characters that are not part of a `"%%"` pair; what follows the first
one goes to the non-template overload, which has no argument to consume. -/
theorem args_consumed_counterexample :
    log "% %".toList (7 : Nat) [] = [Call.pushArg 7, Call.logPlain " %".toList] ∧
    argsConsumed (log "% %".toList (7 : Nat) []) = 1 ∧
    unescapedPercents "% %".toList = 2 := by
  decide

/-- C7, amended: text in which every `'%'` is written `"%%"` is pushed
character by character, one `'%'` per pair, with the argument list untouched
for what follows; the number of arguments the template consumes is the number
of `'%'` characters not part of a `"%%"` pair, capped by the number of
arguments supplied (`value` and `args...`); and when the last argument is
substituted, all that follows its `'%'` is handed, unread, to the non-template
overload `log(const char*)`. -/
theorem escape_pairs_and_args_consumed {α : Type} (lit s : List Char) (value : α)
    (args : List α) :
    log (escape lit ++ s) value args = lit.map Call.pushChar ++ log s value args ∧
    argsConsumed (lit.map (Call.pushChar : Char → Call α)) = 0 ∧
    argsConsumed (log s value args) = min (unescapedPercents s) (args.length + 1) ∧
    (∀ rest : List Char, rest.head? ≠ some '%' →
      log (escape lit ++ '%' :: rest) value []
        = lit.map Call.pushChar ++ [Call.pushArg value, Call.logPlain rest]) := by
  refine ⟨log_escape_append lit s value args, ?_, argsConsumed_log s value args, ?_⟩
  · induction lit with
    | nil => rfl
    | cons c cs ih => simpa [argsConsumed] using ih
  · intro rest hrest
    rw [log_escape_append, log_placeholder rest value [] hrest]
    rfl

theorem escape_pairs_and_args_consumed_witness :
    " %".toList.head? ≠ some '%' ∧
    log (escape "a%".toList ++ '%' :: " %".toList) (7 : Nat) []
      = "a%".toList.map Call.pushChar ++ [Call.pushArg 7, Call.logPlain " %".toList] ∧
    argsConsumed (log "% %".toList (7 : Nat) []) = min (unescapedPercents "% %".toList) 1 :=
  ⟨by decide,
    (escape_pairs_and_args_consumed "a%".toList "% %".toList 7 []).2.2.2 " %".toList (by decide),
    (escape_pairs_and_args_consumed "a%".toList "% %".toList 7 []).2.2.1⟩

end Logger

/-! ## Historical client -/

namespace HistoricalClient

theorem sizeSub_of_le (n : Nat) (h8 : 8 ≤ n) : sizeSub n 8 = n - 8 := by
  unfold sizeSub
  rw [if_pos h8]

theorem sizeSub_of_lt (n : Nat) (h8 : n < 8) : sizeSub n 8 = 2 ^ 64 - (8 - n) := by
  unfold sizeSub
  rw [if_neg (by omega)]

/-- On a name of at least 8 characters the test of line 41 completes and is
exact: it holds exactly when the name ends with `".dbn.zst"`. -/
theorem suffixTest_of_long (file : FileName) (h8 : 8 ≤ file.length) :
    suffixTest file = Except.ok (decide (".dbn.zst".toList <:+ file)) := by
  have hlen : ".dbn.zst".toList.length = 8 := by decide
  have hsub : substr file (sizeSub file.length 8) = Except.ok (file.drop (file.length - 8)) := by
    rw [sizeSub_of_le _ h8]
    unfold substr
    rw [if_neg (by omega)]
  have hiff : file.drop (file.length - 8) = ".dbn.zst".toList ↔ ".dbn.zst".toList <:+ file := by
    constructor
    · intro h
      rw [← h]
      exact List.drop_suffix _ _
    · intro h
      obtain ⟨t, ht⟩ := h
      have hl : t.length = file.length - 8 := by
        have := congrArg List.length ht
        simp only [List.length_append, hlen] at this
        omega
      rw [← hl, ← ht, List.drop_left]
  unfold suffixTest
  rw [hsub]
  show Except.ok (decide _) = Except.ok (decide _)
  rw [decide_eq_decide.mpr hiff]

/-- On a name shorter than 8 characters the test of line 41 raises
`std::out_of_range`. -/
theorem suffixTest_of_short (file : FileName) (h8 : file.length < 8) :
    suffixTest file = Except.error Exn.outOfRange := by
  have hsub : substr file (sizeSub file.length 8) = Except.error Exn.outOfRange := by
    rw [sizeSub_of_lt _ h8]
    unfold substr
    rw [if_pos (by omega)]
  unfold suffixTest
  rw [hsub]
  rfl

/-- C9, on the code: for the 6-character name `"a.json"` the index
`file.length() - 8` wraps around to `2^64 - 2`, `substr` raises
`std::out_of_range`, and the loop ends there, so that a later `".dbn.zst"`
file of the same download list is not replayed. -/
theorem suffix_test_raises_on_short_name :
    sizeSub "a.json".toList.length 8 = 2 ^ 64 - 2 ∧
    suffixTest "a.json".toList = Except.error Exn.outOfRange ∧
    replayDownloaded ["x.dbn.zst".toList, "a.json".toList, "y.dbn.zst".toList]
      = (["x.dbn.zst".toList], some Exn.outOfRange) :=
  ⟨by decide, rfl, rfl⟩

end HistoricalClient

/-! ## Message objects -/

namespace MessageObjects

/-- C8: the default constructor yields the empty level (price the NaN
sentinel, size 0, count 0), and the three-argument constructor yields a level
whose fields are exactly its arguments. -/
theorem priceLevel_constructors :
    PriceLevel.default.price = Common.NaN ∧ PriceLevel.default.price.isNaN = true ∧
    PriceLevel.default.size = 0 ∧ PriceLevel.default.count = 0 ∧
    ∀ (price : Common.Double) (size : Nat) (count : Int),
      (PriceLevel.make price size count).price = price ∧
      (PriceLevel.make price size count).size = size ∧
      (PriceLevel.make price size count).count = count :=
  ⟨rfl, rfl, rfl, rfl, fun _ _ _ => ⟨rfl, rfl, rfl⟩⟩

end MessageObjects

/-! ## Market-data consumer -/

namespace MarketData

/-- C3: a new consumer has its stop flag false; `start` leaves the consumer
as it is, so `stop()` is the only method that changes it; `stop()` sets the
flag from every state, changes nothing but the flag, and a second `stop()`
changes nothing. -/
theorem stop_flag_lifecycle {P J : Type} (streamingProcessor : P) (c : MarketDataConsumer P)
    (client : Provider P J) :
    (MarketDataConsumer.new streamingProcessor).stopSignal = false ∧
    (c.start client).1 = c ∧
    c.stop.stopSignal = true ∧
    c.stop.streamingProcessor = c.streamingProcessor ∧
    c.stop = { c with stopSignal := true } ∧
    c.stop.stop = c.stop :=
  ⟨rfl, rfl, rfl, rfl, rfl, rfl⟩

/-- The invariant behind the blocking of `start`: the calling thread is back
in its caller only if the task has run to its end. -/
theorem returned_step {P J R : Type} (ops : TaskOps J R) (client : Provider P J)
    (s : Session P J R) (a : Actor)
    (hs : s.caller = CallerPc.returned → s.taskFinished ops = true) :
    (step ops client s a).caller = CallerPc.returned →
      (step ops client s a).taskFinished ops = true := by
  obtain ⟨consumer, caller, task, stopCalled, invoked⟩ := s
  cases a with
  | stopper => exact hs
  | caller =>
    cases caller with
    | submitting => intro h; simp [step] at h
    | returned => exact hs
    | joining =>
      cases task with
      | none => intro h; simp [step] at h
      | some l =>
        by_cases hl : ops.finished l = true
        · intro _
          simp [step, hl, Session.taskFinished]
        · intro h
          simp [step, hl] at h
  | task =>
    cases task with
    | none => exact hs
    | some l =>
      by_cases hl : ops.finished l = true
      · intro _
        simp [step, hl, Session.taskFinished]
      · intro h
        have hret : caller = CallerPc.returned := by simpa [step, hl] using h
        exact absurd (by simpa [Session.taskFinished] using hs hret) hl

/-- Under every schedule, for every client, processor and submitted
callable: when `start` is back in its caller, the callable has already run to
its end. -/
theorem returned_only_after_task {P J R : Type} (ops : TaskOps J R) (client : Provider P J)
    (streamingProcessor : P) (schedule : List Actor) :
    (run ops client (Session.initial streamingProcessor) schedule).caller = CallerPc.returned →
      (run ops client (Session.initial streamingProcessor) schedule).taskFinished ops = true := by
  have key : ∀ (sched : List Actor) (s : Session P J R),
      (s.caller = CallerPc.returned → s.taskFinished ops = true) →
      (run ops client s sched).caller = CallerPc.returned →
        (run ops client s sched).taskFinished ops = true := by
    intro sched
    induction sched with
    | nil => intro s hs; exact hs
    | cons a rest ih => intro s hs; exact ih _ (returned_step ops client s a hs)
  exact key schedule _ (by intro h; simp [Session.initial] at h)

/-- C1, on the code: a client with three records to deliver.  After line 37
the calling thread sits at the closing brace of `start`, however often it is
scheduled; it is still there when all three records have been handed to the
callback; it gets back to its caller only after the pull loop has ended. -/
theorem start_blocks_until_loop_ends :
    (run (pullLoopOps MboMsg) (replayClient [MboMsg.mk 1005 1 100 'B', MboMsg.mk 1005 2 101 'A', MboMsg.mk 1006 3 102 'B']) (Session.initial processQuote)
        [Actor.caller, Actor.caller, Actor.caller, Actor.caller]).caller = CallerPc.joining ∧
    (run (pullLoopOps MboMsg) (replayClient [MboMsg.mk 1005 1 100 'B', MboMsg.mk 1005 2 101 'A', MboMsg.mk 1006 3 102 'B']) (Session.initial processQuote)
        [Actor.caller, Actor.task, Actor.caller, Actor.task, Actor.caller, Actor.task,
         Actor.caller]).caller = CallerPc.joining ∧
    (run (pullLoopOps MboMsg) (replayClient [MboMsg.mk 1005 1 100 'B', MboMsg.mk 1005 2 101 'A', MboMsg.mk 1006 3 102 'B']) (Session.initial processQuote)
        [Actor.caller, Actor.task, Actor.caller, Actor.task, Actor.caller, Actor.task,
         Actor.caller]).delivered = [MboMsg.mk 1005 1 100 'B', MboMsg.mk 1005 2 101 'A', MboMsg.mk 1006 3 102 'B'] ∧
    (run (pullLoopOps MboMsg) (replayClient [MboMsg.mk 1005 1 100 'B', MboMsg.mk 1005 2 101 'A', MboMsg.mk 1006 3 102 'B']) (Session.initial processQuote)
        [Actor.caller, Actor.task, Actor.caller, Actor.task, Actor.caller, Actor.task,
         Actor.caller]).taskFinished (pullLoopOps MboMsg) = false ∧
    (run (pullLoopOps MboMsg) (replayClient [MboMsg.mk 1005 1 100 'B', MboMsg.mk 1005 2 101 'A', MboMsg.mk 1006 3 102 'B']) (Session.initial processQuote)
        [Actor.caller, Actor.task, Actor.caller, Actor.task, Actor.caller, Actor.task,
         Actor.caller, Actor.task, Actor.caller]).caller = CallerPc.returned ∧
    (run (pullLoopOps MboMsg) (replayClient [MboMsg.mk 1005 1 100 'B', MboMsg.mk 1005 2 101 'A', MboMsg.mk 1006 3 102 'B']) (Session.initial processQuote)
        [Actor.caller, Actor.task, Actor.caller, Actor.task, Actor.caller, Actor.task,
         Actor.caller, Actor.task, Actor.caller]).taskFinished (pullLoopOps MboMsg) = true := by
  decide

theorem sameWork_step_stopper {P J R : Type} (ops : TaskOps J R) (client : Provider P J)
    (s t : Session P J R) (h : s.SameWork t) : (step ops client s Actor.stopper).SameWork t := by
  obtain ⟨h1, h2, h3, h4⟩ := h
  exact ⟨h1, h2, h3, h4⟩

theorem sameWork_step {P J R : Type} (ops : TaskOps J R) (client : Provider P J)
    (s t : Session P J R) (a : Actor) (ha : a ≠ Actor.stopper) (h : s.SameWork t) :
    (step ops client s a).SameWork (step ops client t a) := by
  obtain ⟨sc, scaller, stask, sstop, sinv⟩ := s
  obtain ⟨tc, tcaller, ttask, tstop, tinv⟩ := t
  obtain ⟨h1, h2, h3, h4⟩ := h
  simp only at h1 h2 h3
  subst h2 h3
  simp only [Session.delivered] at h4
  cases a with
  | stopper => exact absurd rfl ha
  | caller =>
    cases scaller with
    | submitting =>
      exact ⟨h1, rfl, by simp [step, MarketDataConsumer.start, h1], h4⟩
    | joining =>
      cases stask with
      | none => exact ⟨h1, rfl, rfl, h4⟩
      | some l =>
        by_cases hl : ops.finished l = true
        · simp only [step, hl, if_true]
          exact ⟨h1, rfl, rfl, h4⟩
        · simp only [step, hl]
          exact ⟨h1, rfl, rfl, h4⟩
    | returned => exact ⟨h1, rfl, rfl, h4⟩
  | task =>
    cases stask with
    | none => exact ⟨h1, rfl, rfl, h4⟩
    | some l =>
      by_cases hl : ops.finished l = true
      · simp only [step, hl, if_true]
        exact ⟨h1, rfl, rfl, h4⟩
      · simp only [step, hl]
        refine ⟨h1, rfl, rfl, ?_⟩
        simp only [Session.delivered]
        cases (ops.step l).2 with
        | none => exact h4
        | some r => simp [h4]

/-- Calling `stop()` changes nothing the task or the calling thread does,
whatever the submitted callable is: under every schedule the session has the
same task, the same position in `start` and the same records delivered to the
callback as under the schedule with the calls of `stop()` taken out. -/
theorem stop_does_not_reach_task {P J R : Type} (ops : TaskOps J R) (client : Provider P J)
    (streamingProcessor : P) (schedule : List Actor) :
    (run ops client (Session.initial streamingProcessor) schedule).SameWork
      (run ops client (Session.initial streamingProcessor) (withoutStop schedule)) := by
  have key : ∀ (sched : List Actor) (s t : Session P J R), s.SameWork t →
      (run ops client s sched).SameWork (run ops client t (withoutStop sched)) := by
    intro sched
    induction sched with
    | nil => intro s t h; exact h
    | cons a rest ih =>
      intro s t h
      by_cases ha : a = Actor.stopper
      · subst ha
        have hw : withoutStop (Actor.stopper :: rest) = withoutStop rest := by
          simp [withoutStop]
        rw [hw]
        exact ih _ _ (sameWork_step_stopper ops client s t h)
      · have hw : withoutStop (a :: rest) = a :: withoutStop rest := by
          simp [withoutStop, ha]
        rw [hw]
        exact ih _ _ (sameWork_step ops client s t a ha h)
  exact key schedule _ _ ⟨rfl, rfl, rfl, rfl⟩

/-- C2, on the code: a client with four records to deliver and `processQuote`
as the callback.  `stop()` is called after the first record; it sets the
flag, and the three remaining records are still handed to the callback. -/
theorem callbacks_continue_after_stop :
    (run (pullLoopOps MboMsg) (replayClient [MboMsg.mk 1005 1 100 'B', MboMsg.mk 1005 2 101 'A', MboMsg.mk 1006 3 102 'B',
          MboMsg.mk 1006 4 103 'A']) (Session.initial processQuote)
        [Actor.caller, Actor.task, Actor.stopper, Actor.task, Actor.task, Actor.task]
      ).consumer.stopSignal = true ∧
    (run (pullLoopOps MboMsg) (replayClient [MboMsg.mk 1005 1 100 'B', MboMsg.mk 1005 2 101 'A', MboMsg.mk 1006 3 102 'B',
          MboMsg.mk 1006 4 103 'A']) (Session.initial processQuote)
        [Actor.caller, Actor.task, Actor.stopper, Actor.task, Actor.task, Actor.task]
      ).stopCalled = true ∧
    (run (pullLoopOps MboMsg) (replayClient [MboMsg.mk 1005 1 100 'B', MboMsg.mk 1005 2 101 'A', MboMsg.mk 1006 3 102 'B',
          MboMsg.mk 1006 4 103 'A']) (Session.initial processQuote)
        [Actor.caller, Actor.task, Actor.stopper, Actor.task, Actor.task, Actor.task]
      ).invokedAfterStop
      = [MboMsg.mk 1005 2 101 'A', MboMsg.mk 1006 3 102 'B', MboMsg.mk 1006 4 103 'A'] := by
  decide

end MarketData

/-! ## Strategy server and order manager -/

namespace Strategies

/-- C5: a request with `qty = 0` or with a NaN bid or ask price leaves the
open-orders map exactly as it was and signals `InvalidOrderRequest`. -/
theorem onOrderRequest_rejects_invalid (openOrders : OpenOrders) (instrumentId : Nat)
    (bidPrice askPrice : Common.Double) (qty : Nat)
    (h : qty = 0 ∨ bidPrice = Common.NaN ∨ askPrice = Common.NaN) :
    onOrderRequest openOrders instrumentId bidPrice askPrice qty
      = (openOrders, Except.error OrderError.InvalidOrderRequest) := by
  unfold onOrderRequest
  rw [if_pos]
  rcases h with h | h | h
  · simp [h]
  · simp [h, invalidPrice, Common.NaN, Common.Double.isNaN]
  · simp [h, invalidPrice, Common.NaN, Common.Double.isNaN]

theorem onOrderRequest_rejects_invalid_witness :
    ((3 : Nat) = 0 ∨ Common.Double.finite 1 = Common.NaN ∨ Common.NaN = Common.NaN) ∧
    onOrderRequest (fun _ => none) 1005 (Common.Double.finite 1) Common.NaN 3
      = ((fun _ => none), Except.error OrderError.InvalidOrderRequest) :=
  ⟨Or.inr (Or.inr rfl),
    onOrderRequest_rejects_invalid (fun _ => none) 1005 (Common.Double.finite 1) Common.NaN 3
      (Or.inr (Or.inr rfl))⟩

/-- A valid request does change the map: the instrument gets an `OPEN` order. -/
theorem onOrderRequest_accepts_example :
    (onOrderRequest (fun _ => none) 1005 (Common.Double.finite 1) (Common.Double.finite 2) 3).1
      1005 = some ⟨Common.Double.finite 1, Common.Double.finite 2, 3, OrderStatus.OPEN⟩ := by
  have h1 : ¬ ((1 : ℚ) < 0) := by norm_num
  have h2 : ¬ ((2 : ℚ) < 0) := by norm_num
  simp [onOrderRequest, invalidPrice, Common.Double.isNaN, Common.Double.isNegative, h1, h2]

end Strategies

end BeaconTech
